import Mathlib

/- Verification of the DASH MPD parsing layer of StreamingCommunity
   (Lib/Downloader/DASH/parser.py and Lib/Downloader/DASH/cdm_helpher.py),
   as a shallow embedding: Python string primitives are modelled on
   `List Char`, XML elements as inductive data, and the stateful loops as
   explicit state-passing folds. -/

namespace DASH

/-! ## Python string primitives used by the parser -/

/-- Model of Python `str.zfill`: pad with leading zeros to total length
    `width`, inserting the padding after a leading sign character. -/
def zfillChars (l : List Char) (width : Nat) : List Char :=
  if width ≤ l.length then l
  else
    match l with
    | [] => List.replicate width '0'
    | c :: rest =>
      if c = '-' ∨ c = '+' then c :: (List.replicate (width - l.length) '0' ++ rest)
      else List.replicate (width - l.length) '0' ++ (c :: rest)

/-- Model of Python `needle in hay` substring containment. -/
def containsSub : List Char → List Char → Bool
  | [], needle => needle.isEmpty
  | c :: t, needle => needle.isPrefixOf (c :: t) || containsSub t needle

/-- Model of Python `str.replace` with a non-empty needle: replace every
    non-overlapping occurrence, scanning left to right. -/
def replaceAll (needle repl : List Char) : List Char → List Char
  | [] => []
  | c :: rest =>
    if h : needle ≠ [] ∧ needle.isPrefixOf (c :: rest) then
      repl ++ replaceAll needle repl (List.drop needle.length (c :: rest))
    else
      c :: replaceAll needle repl rest
termination_by l => l.length
decreasing_by
  · simp only [List.length_drop, List.length_cons]
    have hpos : 0 < needle.length := List.length_pos.mpr h.1
    omega
  · simp only [List.length_cons]
    exact Nat.lt_succ_self _

/-- Model of Python `s.split(sep, 1)`: `none` when `sep` does not occur,
    otherwise the parts before and after the first occurrence. -/
def splitFirst (sep : Char) : List Char → Option (List Char × List Char)
  | [] => none
  | c :: rest =>
    if c = sep then some ([], rest)
    else
      match splitFirst sep rest with
      | some (a, b) => some (c :: a, b)
      | none => none

/-! ## URLBuilder -/

/-- Embedding of `URLBuilder._finalize_url`: split the template on the first
    `#` to isolate the fragment, then on the first `?` to isolate the query,
    URL-join only the path part against `base` (the join function itself,
    `urllib.parse.urljoin`, is a parameter), and reassemble
    `joined_path + '?' + query + '#' + fragment`. -/
def finalize_url (join : String → String → String) (base template : String) : String :=
  let split1 := splitFirst '#' template.data
  let path_and_query := match split1 with
    | some (a, _) => a
    | none => template.data
  let frag : List Char := match split1 with
    | some (_, b) => '#' :: b
    | none => []
  match splitFirst '?' path_and_query with
  | some (path_part, query_part) =>
    String.mk ((join base (String.mk path_part)).data ++ '?' :: query_part ++ frag)
  | none =>
    String.mk ((join base (String.mk path_and_query)).data ++ frag)

/-- Parser for the `\d+d\$` tail of the `$Number%0Nd$` placeholder: consumes
    one or more digits, then `d` and `$`, returning the decimal value of the
    digits and the rest of the input (the accumulator starts at `acc`,
    `seen` records whether a digit has been consumed yet). -/
def parseDigitsD : List Char → Nat → Bool → Option (Nat × List Char)
  | [], _, _ => none
  | c :: rest, acc, seen =>
    if c.isDigit then parseDigitsD rest (acc * 10 + (c.toNat - 48)) true
    else if c = 'd' ∧ seen = true then
      match rest with
      | '$' :: r => some (acc, r)
      | _ => none
    else none

/-- Matcher for the regex `\$Number(\%0\d+d)?\$` at the head of the input:
    returns the optional width and the input after the match. -/
def tryMatchNumber (l : List Char) : Option (Option Nat × List Char) :=
  if l.take 7 = ['$', 'N', 'u', 'm', 'b', 'e', 'r'] then
    match l.drop 7 with
    | '$' :: r => some (none, r)
    | '%' :: '0' :: r =>
      match parseDigitsD r 0 false with
      | some (w, r2) => some (some w, r2)
      | none => none
    | _ => none
  else none

theorem parseDigitsD_length_lt :
    ∀ (l : List Char) (acc : Nat) (seen : Bool) (w : Nat) (rest : List Char),
      parseDigitsD l acc seen = some (w, rest) → rest.length < l.length := by
  intro l
  induction l with
  | nil => intro acc seen w rest h; simp [parseDigitsD] at h
  | cons c t ih =>
    intro acc seen w rest h
    simp only [parseDigitsD] at h
    by_cases hd : c.isDigit
    · simp only [hd, if_true] at h
      have := ih _ _ _ _ h
      simp only [List.length_cons]
      omega
    · simp only [hd, if_false] at h
      by_cases hc : c = 'd' ∧ seen = true
      · simp only [hc, if_true] at h
        cases t with
        | nil => simp at h
        | cons c2 t2 =>
          by_cases h2 : c2 = '$'
          · subst h2
            simp at h
            simp only [← h.2, List.length_cons]
            omega
          · cases hc2 : c2 <;> simp [hc2] at h h2 <;> simp_all
      · simp [hc] at h

theorem tryMatchNumber_length_lt (l : List Char) (w : Option Nat) (rest : List Char)
    (h : tryMatchNumber l = some (w, rest)) : rest.length < l.length := by
  unfold tryMatchNumber at h
  by_cases htake : l.take 7 = ['$', 'N', 'u', 'm', 'b', 'e', 'r']
  · simp only [htake, if_true] at h
    have hlen7 : 7 ≤ l.length := by
      have := congrArg List.length htake
      simp [List.length_take] at this
      omega
    have hdlen : (l.drop 7).length = l.length - 7 := List.length_drop 7 l
    rcases hdrop : l.drop 7 with _ | ⟨c, r⟩
    · simp [hdrop] at h
    · rw [hdrop] at h
      have hrlen : r.length + 1 = l.length - 7 := by
        have := congrArg List.length hdrop
        simp [hdlen] at this
        omega
      by_cases hc : c = '$'
      · subst hc
        simp at h
        rw [← h.2]
        omega
      · rcases hc2 : c with _
        by_cases hp : c = '%'
        · subst hp
          rcases r with _ | ⟨c2, r2⟩
          · simp at h
          · by_cases h0 : c2 = '0'
            · subst h0
              simp at h
              rcases hpd : parseDigitsD r2 0 false with _ | ⟨wv, rst⟩
              · rw [hpd] at h; simp at h
              · rw [hpd] at h
                simp at h
                have := parseDigitsD_length_lt _ _ _ _ _ hpd
                rw [← h.2]
                simp only [List.length_cons] at hrlen
                omega
            · cases hcc : c2 <;> simp_all
        · cases hcc : c <;> simp_all
  · simp [htake] at h

/-- Embedding of the body of `URLBuilder._replace_number`: scan the template
    left to right; at each match of `\$Number(\%0\d+d)?\$`, emit the
    replacement computed from the optional width and continue after the
    match; otherwise keep the character. -/
def replaceNumberAux (repl : Option Nat → List Char) : List Char → List Char
  | [] => []
  | c :: cs =>
    match h : tryMatchNumber (c :: cs) with
    | some (w, rest) => repl w ++ replaceNumberAux repl rest
    | none => c :: replaceNumberAux repl cs
termination_by l => l.length
decreasing_by
  · exact tryMatchNumber_length_lt _ _ _ h
  · simp only [List.length_cons]
    exact Nat.lt_succ_self _

/-- Replacement text of `_replace_number_match`: `str(num).zfill(width)` when
    the formatted variant matched, else `str(num)`, with `num` defaulting to
    0 when no number was supplied. -/
def numberRepl (number : Option Int) (fmt : Option Nat) : List Char :=
  let num : Int := number.getD 0
  match fmt with
  | some width => zfillChars (toString num).data width
  | none => (toString num).data

/-- Embedding of `URLBuilder._replace_number`. -/
def replace_number (template : String) (number : Option Int) : String :=
  String.mk (replaceNumberAux (numberRepl number) template.data)

/-- Embedding of `URLBuilder.build_url` (the `urljoin` of the standard
    library is abstracted as the `join` parameter): substitute
    `$RepresentationID$` and `$Bandwidth$`, then `$Number...$`, then `$Time$`,
    and finalize against the base URL; an empty template yields `none`. -/
def build_url (join : String → String → String) (base template : String)
    (rep_id : Option String) (number : Option Int) (time : Option Int)
    (bandwidth : Option Int) : Option String :=
  if template = "" then none
  else
    let t1 := match rep_id with
      | some r => String.mk (replaceAll "$RepresentationID$".data r.data template.data)
      | none => template
    let t2 := match bandwidth with
      | some b => String.mk (replaceAll "$Bandwidth$".data (toString b).data t1.data)
      | none => t1
    let t3 := replace_number t2 number
    let t4 := match time with
      | some t =>
        if containsSub t3.data "$Time$".data then
          String.mk (replaceAll "$Time$".data (toString t).data t3.data)
        else t3
      | none => t3
    some (finalize_url join base t4)

/-! ## SegmentTimeline decoding -/

/-- Model of an `S` child of `SegmentTimeline`: the `d`, `r`, `t` attributes
    (each may be absent; `int()` of the attribute text is an integer). -/
structure SElem where
  d : Option Int
  r : Option Int
  t : Option Int
deriving DecidableEq, Repr

/-- State threaded through `SegmentTimelineParser.parse`: the two output
    lists, the running segment number and the running time. -/
structure TLState where
  numbers : List Int
  times : List Int
  startNumber : Int
  currentTime : Option Int
deriving DecidableEq, Repr

/-- Inner `for i in range(r + 1)` loop: append `k` consecutive numbers from
    `start` and `k` times from `cur` stepping by `d`; returns the two
    appended lists and the final counters. -/
def emitRun (d : Int) : Nat → Int → Int → List Int × List Int × Int × Int
  | 0, start, cur => ([], [], start, cur)
  | k + 1, start, cur =>
    let rest := emitRun d k (start + 1) (cur + d)
    (start :: rest.1, cur :: rest.2.1, rest.2.2.1, rest.2.2.2)

/-- Processing of one `S` element by `SegmentTimelineParser.parse`: skip it
    entirely when `d` is absent; otherwise resolve the current time from `t`
    (falling back to the running time, itself defaulting to 0 the first
    time), then emit `r + 1` entries (`r` defaulting to 0; a negative count
    emits nothing, as `range` does). -/
def stepS (st : TLState) (s : SElem) : TLState :=
  match s.d with
  | none => st
  | some d =>
    let r := (s.r.getD 0)
    let t0 : Int := match s.t with
      | some t => t
      | none => st.currentTime.getD 0
    let run := emitRun d (r + 1).toNat st.startNumber t0
    { numbers := st.numbers ++ run.1
      times := st.times ++ run.2.1
      startNumber := run.2.2.1
      currentTime := some run.2.2.2 }

/-- Embedding of `SegmentTimelineParser.parse`: fold over the `S` children in
    document order from the initial state (empty lists, start number 1, no
    current time), returning the number list and the time list. -/
def parseTimeline (ss : List SElem) : List Int × List Int :=
  let st := ss.foldl stepS { numbers := [], times := [], startNumber := 1, currentTime := none }
  (st.numbers, st.times)

/-! ## Representations and segment URL construction -/

/-- Model of the representation dictionary built by
    `RepresentationParser._parse_representation`. -/
structure Rep where
  id : Option String
  type : String
  codec : Option String
  bandwidth : Int
  width : Int
  height : Int
  language : String
  init_url : Option String
  segment_urls : List String
deriving DecidableEq, Repr

/-- Model of a `SegmentTemplate` element as read by
    `RepresentationParser._build_segment_urls`: the `initialization`,
    `media` and `startNumber` attributes and the optional
    `SegmentTimeline` child (its `S` children in document order). -/
structure SegTemplate where
  initialization : Option String
  media : Option String
  startNumber : Option Int
  timeline : Option (List SElem)
deriving DecidableEq, Repr

/-- Embedding of `RepresentationParser._build_media_urls`: no media template
    gives no URLs; a template containing `$Time$` (with a non-empty time
    list) gives one URL per time; else one containing `$Number` (with a
    non-empty number list) gives one URL per number; else a single URL. -/
def build_media_urls (join : String → String → String) (media_template : Option String)
    (base_url : String) (rep_id : Option String) (bandwidth : Option Int)
    (number_list : List Int) (time_list : List Int) : List String :=
  match media_template with
  | none => []
  | some m =>
    if m = "" then []
    else if containsSub m.data "$Time$".data ∧ time_list ≠ [] then
      time_list.map (fun t =>
        (build_url join base_url m rep_id none (some t) bandwidth).getD "")
    else if containsSub m.data "$Number".data ∧ number_list ≠ [] then
      number_list.map (fun n =>
        (build_url join base_url m rep_id (some n) none bandwidth).getD "")
    else
      [(build_url join base_url m rep_id none none bandwidth).getD ""]

/-- Embedding of `RepresentationParser._build_segment_urls`: decode the
    timeline; when the decoded number list is empty, fall back to the 100
    consecutive numbers starting at `startNumber` (default 1); build the
    init URL from the `initialization` attribute and the media URLs from the
    `media` attribute. -/
def build_segment_urls (join : String → String → String) (seg_tmpl : SegTemplate)
    (rep_id : Option String) (bandwidth : Option Int) (base_url : String) :
    Option String × List String :=
  let start_number := seg_tmpl.startNumber.getD 1
  let init_url : Option String := match seg_tmpl.initialization with
    | some i => if i ≠ "" then build_url join base_url i rep_id none none bandwidth else none
    | none => none
  let decoded := match seg_tmpl.timeline with
    | some ss => parseTimeline ss
    | none => ([], [])
  let number_list := if decoded.1 = [] then
      (List.range 100).map (fun i : Nat => start_number + (i : Int))
    else decoded.1
  let media_urls := build_media_urls join seg_tmpl.media base_url rep_id bandwidth
      number_list decoded.2
  (init_url, media_urls)

/-! ## Selection among representations (MPDParser) -/

/-- Model of Python `max(xs, key=key)` on a non-empty list: the fold keeps
    the current maximum and replaces it only on a strictly greater key, so
    ties keep the earlier element; the empty list gives `none` (where Python
    would raise). -/
def pyMaxBy {α κ : Type} (lt : κ → κ → Bool) (key : α → κ) : List α → Option α
  | [] => none
  | x :: xs => some (xs.foldl (fun acc y => if lt (key acc) (key y) then y else acc) x)

/-- Model of Python `min(xs, key=key)`, dually. -/
def pyMinBy {α κ : Type} (lt : κ → κ → Bool) (key : α → κ) : List α → Option α
  | [] => none
  | x :: xs => some (xs.foldl (fun acc y => if lt (key y) (key acc) then y else acc) x)

/-- Strict lexicographic order on Python triples `(height, width, bandwidth)`. -/
def tripleLt (a b : Int × Int × Int) : Bool :=
  a.1 < b.1 ∨ (a.1 = b.1 ∧ (a.2.1 < b.2.1 ∨ (a.2.1 = b.2.1 ∧ a.2.2 < b.2.2)))

/-- Sorting key of `get_best`/`get_worst` for video representations. -/
def videoKey (r : Rep) : Int × Int × Int := (r.height, r.width, r.bandwidth)

/-- Embedding of `MPDParser.get_best`: among the video representations (when
    any) the maximum by `(height, width, bandwidth)`; otherwise among the
    audio representations (when any) the maximum by bandwidth; else `none`. -/
def get_best (representations : List Rep) : Option Rep :=
  let videos := representations.filter (fun r => r.type = "video")
  let audios := representations.filter (fun r => r.type = "audio")
  if videos ≠ [] then pyMaxBy tripleLt videoKey videos
  else if audios ≠ [] then pyMaxBy (fun a b => a < b) Rep.bandwidth audios
  else none

/-- Embedding of `MPDParser.get_worst`, dually. -/
def get_worst (representations : List Rep) : Option Rep :=
  let videos := representations.filter (fun r => r.type = "video")
  let audios := representations.filter (fun r => r.type = "audio")
  if videos ≠ [] then pyMinBy tripleLt videoKey videos
  else if audios ≠ [] then pyMinBy (fun a b => a < b) Rep.bandwidth audios
  else none

/-- Embedding of `MPDParser.get_audios`. -/
def get_audios (representations : List Rep) : List Rep :=
  representations.filter (fun r => r.type = "audio")

/-- Embedding of `MPDParser.get_best_audio`: the audio representation with
    the highest bandwidth, `none` when there is no audio representation. -/
def get_best_audio (representations : List Rep) : Option Rep :=
  pyMaxBy (fun a b => a < b) Rep.bandwidth (get_audios representations)

/-- Coalesced language tag, Python `rep['language'] or "None"`. -/
def langOrNone (r : Rep) : String :=
  if r.language = "" then "None" else r.language

/-- Model of Python `str.lower()`: character-wise lowering. -/
def lowerStr (s : String) : String :=
  String.mk (s.data.map Char.toLower)

/-- Inner loop of `MPDParser.select_audio`: the first audio representation
    (in parse order) whose coalesced language tag equals `lang`
    case-insensitively. -/
def findLang (audio_reps : List Rep) (lang : String) : Option Rep :=
  audio_reps.find? (fun rep => lowerStr (langOrNone rep) = lowerStr lang)

/-- Outer preference loop of `MPDParser.select_audio`: the first preferred
    language with a match wins. -/
def selectByPrefs (audio_reps : List Rep) : List String → Option Rep
  | [] => none
  | lang :: rest =>
    match findLang audio_reps lang with
    | some r => some r
    | none => selectByPrefs audio_reps rest

/-- Embedding of `MPDParser.select_audio` (first component of its return
    tuple): with a non-empty preference list, scan it in priority order and
    fall back to `get_best_audio` when nothing matches; with no preference
    list, use `get_best_audio` directly. -/
def select_audio (representations : List Rep) (preferred_audio_langs : List String) :
    Option Rep :=
  let audio_reps := get_audios representations
  if preferred_audio_langs ≠ [] then
    match selectByPrefs audio_reps preferred_audio_langs with
    | some r => some r
    | none => get_best_audio representations
  else get_best_audio representations

/-! ## Namespace extraction and qualified lookups -/

/-- Embedding of `MPDParser._extract_namespace`: when the root tag starts
    with a brace, take the URI up to the closing brace, register it under
    the `mpd` prefix and register the fixed `cenc` URI; otherwise register
    nothing. -/
def extract_namespace (tag : String) : List (String × String) :=
  match tag.data with
  | '{' :: rest =>
    let uri := match splitFirst '}' rest with
      | some (a, _) => a
      | none => rest
    [("mpd", String.mk uri), ("cenc", "urn:mpeg:cenc:2013")]
  | _ => []

/-- Resolution of a prefixed tag token by `xml.etree.ElementPath`: a token
    without a colon is kept; a token `prefix:local` becomes the
    brace-qualified tag when the prefix is registered, and raises
    `SyntaxError` (modelled as `Except.error` carrying the prefix) when it
    is not — including when the prefix map is empty. -/
def resolveQName (ns : List (String × String)) (q : String) : Except String String :=
  match splitFirst ':' q.data with
  | none => Except.ok q
  | some (pre, loc) =>
    match ns.lookup (String.mk pre) with
    | some uri => Except.ok (String.mk ('{' :: uri.data ++ '}' :: loc))
    | none => Except.error (String.mk pre)

/-! ## Manifest fetching with retries -/

/-- Outcome of one attempt of `MPDParser._fetch_and_parse_mpd`: the GET can
    fail in transport, `raise_for_status` can raise on a failure status,
    `ET.fromstring` can raise on a malformed body, or a parsed document is
    obtained. -/
inductive AttemptOutcome (D : Type) where
  | transportError
  | badStatus (code : Nat)
  | parseError
  | ok (doc : D)
deriving DecidableEq, Repr

/-- Exception escaping a failed attempt. -/
inductive FetchErr where
  | transport
  | httpStatus (code : Nat)
  | xmlParse
deriving DecidableEq, Repr

/-- One iteration body of the retry loop: the try-block either binds the
    parsed document or raises. -/
def runAttempt {D : Type} : AttemptOutcome D → Except FetchErr D
  | AttemptOutcome.transportError => Except.error FetchErr.transport
  | AttemptOutcome.badStatus c => Except.error (FetchErr.httpStatus c)
  | AttemptOutcome.parseError => Except.error FetchErr.xmlParse
  | AttemptOutcome.ok d => Except.ok d

/-- Retry loop of `_fetch_and_parse_mpd` from attempt index `i` with
    `remaining` further iterations allowed: on the last iteration the
    exception is re-raised, otherwise any exception leads to the next
    attempt. -/
def fetchFrom {D : Type} (attempts : Nat → AttemptOutcome D) :
    Nat → Nat → Except FetchErr D
  | 0, i => runAttempt (attempts i)
  | n + 1, i =>
    match runAttempt (attempts i) with
    | Except.ok d => Except.ok d
    | Except.error _ => fetchFrom attempts n (i + 1)

/-- Embedding of `MPDParser._fetch_and_parse_mpd`: `for attempt in
    range(max_retry + 1)`, starting at attempt 0. -/
def fetch_and_parse_mpd {D : Type} (attempts : Nat → AttemptOutcome D)
    (max_retry : Nat) : Except FetchErr D :=
  fetchFrom attempts max_retry 0

/-! ## Widevine CONTENT key extraction (cdm_helpher.py) -/

/-- Lowercase hexadecimal digit. -/
def hexDigit (n : Nat) : Char :=
  if n < 10 then Char.ofNat (48 + n) else Char.ofNat (87 + n)

/-- Model of Python `bytes.hex()`: two lowercase hex digits per byte. -/
def byteHex (b : Nat) : List Char := [hexDigit (b / 16 % 16), hexDigit (b % 16)]

/-- Hex string of a byte sequence. -/
def bytesHex (bs : List Nat) : String := String.mk (bs.map byteHex).join

/-- Model of `str()` of a `uuid.UUID` over its 16 bytes: lowercase hex in
    the 8-4-4-4-12 dashed grouping. -/
def uuidStr (bs : List Nat) : String :=
  let h := (bs.map byteHex).join
  String.mk (h.take 8 ++ '-' :: (h.drop 8).take 4 ++ '-' :: (h.drop 12).take 4
    ++ '-' :: (h.drop 16).take 4 ++ '-' :: h.drop 20)

/-- Model of Python `str.strip()` with no argument: drop whitespace from
    both ends. -/
def pyStrip (s : String) : String :=
  String.mk (((s.data.dropWhile Char.isWhitespace).reverse.dropWhile Char.isWhitespace).reverse)

/-- Value of `key.kid` / `key.key` as held by pywidevine: raw bytes, or a
    UUID rendered through `str()`. -/
inductive KeyVal where
  | bytes (bs : List Nat)
  | uuid (bs : List Nat)
deriving DecidableEq, Repr

/-- Stringification in `get_widevine_keys`:
    `key.kid.hex() if isinstance(key.kid, bytes) else str(key.kid)`. -/
def keyValStr : KeyVal → String
  | KeyVal.bytes bs => bytesHex bs
  | KeyVal.uuid bs => uuidStr bs

/-- Model of a pywidevine session key: its protocol type string and its two
    values. -/
structure WvKey where
  type : String
  kid : KeyVal
  key : KeyVal
deriving DecidableEq, Repr

/-- Normalization applied to each retained value:
    `.replace('-', '').strip()`. -/
def normalizeKeyStr (s : String) : String :=
  pyStrip (String.mk (replaceAll ['-'] [] s.data))

/-- Embedding of the key-extraction tail of `get_widevine_keys` (after a
    successful license parse): keep the session keys whose type is
    `CONTENT`, normalizing kid and key; when none remain, warn and return
    `None` (modelled as `none`) instead of raising. -/
def extract_content_keys (keys : List WvKey) : Option (List (String × String)) :=
  let content_keys := keys.filterMap (fun k =>
    if k.type = "CONTENT" then
      some (normalizeKeyStr (keyValStr k.kid), normalizeKeyStr (keyValStr k.key))
    else none)
  if content_keys = [] then none else some content_keys

/-! ## Theorems: segment timeline (C1) -/

theorem list_range_succ_map {α : Type} (f : Nat → α) (n : Nat) :
    (List.range (n + 1)).map f = f 0 :: (List.range n).map (fun i => f (i + 1)) := by
  rw [List.range_succ_eq_map, List.map_cons, List.map_map]
  rfl

theorem emitRun_spec (d : Int) : ∀ (k : Nat) (start cur : Int),
    emitRun d k start cur =
      ((List.range k).map (fun i : Nat => start + (i : Int)),
       (List.range k).map (fun i : Nat => cur + (i : Int) * d),
       start + k, cur + k * d) := by
  intro k
  induction k with
  | zero => intro start cur; simp [emitRun]
  | succ n ih =>
    intro start cur
    simp only [emitRun, ih]
    rw [list_range_succ_map, list_range_succ_map]
    refine Prod.ext ?_ (Prod.ext ?_ (Prod.ext ?_ ?_))
    · simp only []
      congr 1
      · push_cast; ring
      · apply List.map_congr_left
        intro i _
        push_cast
        ring
    · simp only []
      congr 1
      · push_cast; ring
      · apply List.map_congr_left
        intro i _
        push_cast
        ring
    · simp only []
      push_cast
      ring
    · simp only []
      push_cast
      ring

theorem stepS_none (st : TLState) (r t : Option Int) :
    stepS st ⟨none, r, t⟩ = st := rfl

theorem stepS_some (st : TLState) (d : Int) (ro to_ : Option Int) :
    stepS st ⟨some d, ro, to_⟩ =
      { numbers := st.numbers ++
          (List.range ((ro.getD 0 + 1).toNat)).map (fun i : Nat => st.startNumber + (i : Int))
        times := st.times ++
          (List.range ((ro.getD 0 + 1).toNat)).map
            (fun i : Nat => (to_.getD (st.currentTime.getD 0)) + (i : Int) * d)
        startNumber := st.startNumber + ((ro.getD 0 + 1).toNat : Int)
        currentTime := some ((to_.getD (st.currentTime.getD 0))
          + ((ro.getD 0 + 1).toNat : Int) * d) } := by
  cases to_ <;> simp [stepS, emitRun_spec]

theorem stepS_len_eq (st : TLState) (s : SElem)
    (h : st.numbers.length = st.times.length) :
    (stepS st s).numbers.length = (stepS st s).times.length := by
  rcases s with ⟨d, r, t⟩
  cases d with
  | none => exact h
  | some dv =>
    rw [stepS_some]
    simp [h]

theorem parseTimeline_len_eq (ss : List SElem) :
    (parseTimeline ss).1.length = (parseTimeline ss).2.length := by
  suffices hgen : ∀ st : TLState, st.numbers.length = st.times.length →
      (ss.foldl stepS st).numbers.length = (ss.foldl stepS st).times.length by
    exact hgen _ rfl
  induction ss with
  | nil => intro st h; exact h
  | cons s t ih =>
    intro st h
    exact ih _ (stepS_len_eq st s h)

/-- Claim C1: processing of `S` elements by the timeline decoder. An `S`
    element lacking `d` leaves the state untouched and emits nothing; an `S`
    element with `d` (and `r` defaulting to 0, here with `0 ≤ r`) appends
    exactly `r + 1` consecutive segment numbers starting at the running
    start number and `r + 1` times starting at the resolved current time and
    stepping by `d`, advancing both counters; and the two-run example
    `[{d:10,r:2,t:0},{d:5,r:0}]` decodes to numbers `[1,2,3,4]` and times
    `[0,10,20,30]`. -/
theorem C1_timeline_decode :
    (∀ (st : TLState) (r t : Option Int), stepS st ⟨none, r, t⟩ = st) ∧
    (∀ (st : TLState) (d : Int) (ro to_ : Option Int),
      0 ≤ ro.getD 0 →
      let r := ro.getD 0
      let t0 := to_.getD (st.currentTime.getD 0)
      let k := (r + 1).toNat
      (k : Int) = r + 1 ∧
      (stepS st ⟨some d, ro, to_⟩).numbers
        = st.numbers ++ (List.range k).map (fun i : Nat => st.startNumber + (i : Int)) ∧
      (stepS st ⟨some d, ro, to_⟩).times
        = st.times ++ (List.range k).map (fun i : Nat => t0 + (i : Int) * d) ∧
      (stepS st ⟨some d, ro, to_⟩).numbers.length = st.numbers.length + k ∧
      (stepS st ⟨some d, ro, to_⟩).startNumber = st.startNumber + k ∧
      (stepS st ⟨some d, ro, to_⟩).currentTime = some (t0 + k * d)) ∧
    parseTimeline [⟨some 10, some 2, some 0⟩, ⟨some 5, some 0, none⟩]
      = ([1, 2, 3, 4], [0, 10, 20, 30]) := by
  refine ⟨fun st r t => rfl, ?_, by decide⟩
  intro st d ro to_ hr
  refine ⟨by omega, ?_, ?_, ?_, ?_, ?_⟩ <;> rw [stepS_some] <;> simp

/-- Witness for C1 at a concrete state and element: one `S` element with
    `d = 5`, `r = 2`, `t` absent, processed from the initial state. -/
theorem C1_timeline_decode_witness :
    (stepS { numbers := [], times := [], startNumber := 1, currentTime := none }
        ⟨some 5, some 2, none⟩).numbers
      = (List.range 3).map (fun i : Nat => 1 + (i : Int)) := by
  have h := C1_timeline_decode.2.1
      { numbers := [], times := [], startNumber := 1, currentTime := none }
      5 (some 2) none (by decide)
  simpa using h.2.1

/-! ## Theorems: `$Number$` substitution (C7) -/

theorem replaceNumberAux_nil (repl : Option Nat → List Char) :
    replaceNumberAux repl [] = [] := by
  simp [replaceNumberAux]

theorem replaceNumberAux_cons_none (repl : Option Nat → List Char) (c : Char)
    (cs : List Char) (h : tryMatchNumber (c :: cs) = none) :
    replaceNumberAux repl (c :: cs) = c :: replaceNumberAux repl cs := by
  rw [replaceNumberAux]
  split <;> simp_all

theorem replaceNumberAux_cons_some (repl : Option Nat → List Char) (c : Char)
    (cs rest : List Char) (w : Option Nat)
    (h : tryMatchNumber (c :: cs) = some (w, rest)) :
    replaceNumberAux repl (c :: cs) = repl w ++ replaceNumberAux repl rest := by
  rw [replaceNumberAux]
  split <;> simp_all

theorem tryMatchNumber_cons_ne (c : Char) (l : List Char) (hc : c ≠ '$') :
    tryMatchNumber (c :: l) = none := by
  unfold tryMatchNumber
  rw [if_neg]
  intro h
  have ht : (c :: l).take 7 = c :: l.take 6 := rfl
  rw [ht] at h
  exact hc (List.head_eq_of_cons_eq h)

theorem replaceNumberAux_append (repl : Option Nat → List Char) :
    ∀ (p l : List Char), (∀ c ∈ p, c ≠ '$') →
      replaceNumberAux repl (p ++ l) = p ++ replaceNumberAux repl l := by
  intro p
  induction p with
  | nil => intro l _; simp
  | cons c t ih =>
    intro l hp
    have hc : c ≠ '$' := hp c (by simp)
    rw [List.cons_append,
      replaceNumberAux_cons_none repl c (t ++ l) (tryMatchNumber_cons_ne c _ hc),
      ih l (fun x hx => hp x (by simp [hx])), List.cons_append]

/-- Decimal value of a digit string, as accumulated by the regex width
    parser. -/
def digitsVal (ds : List Char) : Nat :=
  ds.foldl (fun a c => a * 10 + (c.toNat - 48)) 0

theorem parseDigitsD_cons_digit (c : Char) (rest : List Char) (acc : Nat)
    (seen : Bool) (hc : c.isDigit) :
    parseDigitsD (c :: rest) acc seen
      = parseDigitsD rest (acc * 10 + (c.toNat - 48)) true := by
  simp only [parseDigitsD]
  simp [hc]

theorem parseDigitsD_digits :
    ∀ (ds : List Char) (acc : Nat) (seen : Bool) (s : List Char),
      ds ≠ [] → (∀ c ∈ ds, c.isDigit) →
      parseDigitsD (ds ++ 'd' :: '$' :: s) acc seen
        = some (ds.foldl (fun a c => a * 10 + (c.toNat - 48)) acc, s) := by
  intro ds
  induction ds with
  | nil => intro acc seen s hne _; exact absurd rfl hne
  | cons c t ih =>
    intro acc seen s _ hdig
    have hc : c.isDigit := hdig c (by simp)
    rw [List.cons_append, parseDigitsD_cons_digit c _ acc seen hc, List.foldl_cons]
    rcases t with _ | ⟨c2, t2⟩
    · rfl
    · exact ih _ true s (by simp) (fun x hx => hdig x (by simp [hx]))

theorem tryMatchNumber_plain (s : List Char) :
    tryMatchNumber ('$' :: 'N' :: 'u' :: 'm' :: 'b' :: 'e' :: 'r' :: '$' :: s)
      = some (none, s) := rfl

theorem tryMatchNumber_fmt (ds s : List Char) (hne : ds ≠ [])
    (hdig : ∀ c ∈ ds, c.isDigit) :
    tryMatchNumber
        ('$' :: 'N' :: 'u' :: 'm' :: 'b' :: 'e' :: 'r' :: '%' :: '0' :: (ds ++ 'd' :: '$' :: s))
      = some (some (digitsVal ds), s) := by
  have h1 : parseDigitsD (ds ++ 'd' :: '$' :: s) 0 false = some (digitsVal ds, s) :=
    parseDigitsD_digits ds 0 false s hne hdig
  unfold tryMatchNumber
  have hcond : ('$' :: 'N' :: 'u' :: 'm' :: 'b' :: 'e' :: 'r' :: '%' :: '0'
      :: (ds ++ 'd' :: '$' :: s)).take 7 = ['$', 'N', 'u', 'm', 'b', 'e', 'r'] := rfl
  have hdrop : ('$' :: 'N' :: 'u' :: 'm' :: 'b' :: 'e' :: 'r' :: '%' :: '0'
      :: (ds ++ 'd' :: '$' :: s)).drop 7 = '%' :: '0' :: (ds ++ 'd' :: '$' :: s) := rfl
  rw [if_pos hcond, hdrop]
  simp [h1]

/-- Claim C7: in `_replace_number`, every occurrence of `$Number%0Nd$` is
    replaced by the supplied number zero-padded (via `zfill`) to the width
    `N` given by the digits, every occurrence of plain `$Number$` by the
    plain decimal number, scanning continues after each occurrence, the
    number defaults to 0 when absent, and `$Number%03d$` with 7 gives
    `"007"` while `$Number$` with 7 gives `"7"`. -/
theorem C7_number_substitution :
    (∀ (p s ds : List Char) (n : Option Int),
      (∀ c ∈ p, c ≠ '$') → ds ≠ [] → (∀ c ∈ ds, c.isDigit) →
      replace_number (String.mk (p ++ '$' :: 'N' :: 'u' :: 'm' :: 'b' :: 'e' :: 'r'
          :: '%' :: '0' :: (ds ++ 'd' :: '$' :: s))) n
        = String.mk (p ++ zfillChars (toString (n.getD 0)).data (digitsVal ds)
            ++ replaceNumberAux (numberRepl n) s)) ∧
    (∀ (p s : List Char) (n : Option Int),
      (∀ c ∈ p, c ≠ '$') →
      replace_number (String.mk (p ++ '$' :: 'N' :: 'u' :: 'm' :: 'b' :: 'e' :: 'r'
          :: '$' :: s)) n
        = String.mk (p ++ (toString (n.getD 0)).data ++ replaceNumberAux (numberRepl n) s)) ∧
    (∀ t : String, replace_number t none = replace_number t (some 0)) ∧
    replace_number "$Number%03d$" (some 7) = "007" ∧
    replace_number "$Number$" (some 7) = "7" := by
  refine ⟨?_, ?_, ?_, ?_, ?_⟩
  · intro p s ds n hp hne hdig
    show String.mk (replaceNumberAux (numberRepl n)
      (p ++ '$' :: 'N' :: 'u' :: 'm' :: 'b' :: 'e' :: 'r' :: '%' :: '0'
        :: (ds ++ 'd' :: '$' :: s))) = _
    rw [replaceNumberAux_append _ p _ hp,
      replaceNumberAux_cons_some _ '$' _ s (some (digitsVal ds))
        (tryMatchNumber_fmt ds s hne hdig)]
    simp only [List.append_assoc]
    rfl
  · intro p s n hp
    show String.mk (replaceNumberAux (numberRepl n)
      (p ++ '$' :: 'N' :: 'u' :: 'm' :: 'b' :: 'e' :: 'r' :: '$' :: s)) = _
    rw [replaceNumberAux_append _ p _ hp,
      replaceNumberAux_cons_some _ '$' _ s none (tryMatchNumber_plain s)]
    simp only [List.append_assoc]
    rfl
  · intro t
    have h : numberRepl none = numberRepl (some 0) := by
      funext w; cases w <;> rfl
    simp [replace_number, h]
  · have e1 := replaceNumberAux_cons_some (numberRepl (some 7)) '$' "Number%03d$".data
      [] (some 3) rfl
    show String.mk (replaceNumberAux (numberRepl (some 7)) ('$' :: "Number%03d$".data)) = "007"
    rw [e1, replaceNumberAux_nil]
    rfl
  · have e1 := replaceNumberAux_cons_some (numberRepl (some 7)) '$' "Number$".data
      [] none rfl
    show String.mk (replaceNumberAux (numberRepl (some 7)) ('$' :: "Number$".data)) = "7"
    rw [e1, replaceNumberAux_nil]
    rfl

/-- Witness for C7 at concrete inputs: a prefix and a two-digit width in the
    formatted variant, and the plain variant after a prefix. -/
theorem C7_number_substitution_witness :
    replace_number "x$Number%02d$" (some 5) = "x05" ∧
    replace_number "y$Number$z" (some 12) = "y12z" := by
  constructor
  · have h := C7_number_substitution.1 ['x'] [] ['2'] (some 5)
      (by decide) (by simp) (by decide)
    rw [replaceNumberAux_nil] at h
    exact h
  · have h := C7_number_substitution.2.1 ['y'] ['z'] (some 12) (by decide)
    rw [replaceNumberAux_cons_none _ 'z' [] (tryMatchNumber_cons_ne 'z' [] (by decide)),
      replaceNumberAux_nil] at h
    exact h

/-! ## Theorems: URL finalization (C8) -/

theorem splitFirst_app (sep : Char) :
    ∀ (a b : List Char), sep ∉ a → splitFirst sep (a ++ sep :: b) = some (a, b) := by
  intro a
  induction a with
  | nil => intro b _; simp [splitFirst]
  | cons c t ih =>
    intro b ha
    have hc : c ≠ sep := fun h => ha (by simp [h])
    simp only [List.cons_append, splitFirst, hc, if_false, List.append_eq]
    rw [ih b (fun h => ha (by simp [h]))]

theorem finalize_url_split (join : String → String → String) (base : String)
    (p q f : List Char) (hp1 : '#' ∉ p) (hp2 : '?' ∉ p) (hq : '#' ∉ q) :
    finalize_url join base (String.mk (p ++ '?' :: q ++ '#' :: f))
      = String.mk ((join base (String.mk p)).data ++ '?' :: q ++ '#' :: f) := by
  have hs1 : splitFirst '#' (p ++ '?' :: q ++ '#' :: f) = some (p ++ '?' :: q, f) := by
    have hmem : '#' ∉ p ++ '?' :: q := by
      intro hmem
      rcases List.mem_append.mp hmem with h | h
      · exact hp1 h
      · rcases List.mem_cons.mp h with h | h
        · exact absurd h (by decide)
        · exact hq h
    have := splitFirst_app '#' (p ++ '?' :: q) f hmem
    simpa [List.append_assoc] using this
  have hs2 : splitFirst '?' (p ++ '?' :: q) = some (p, q) := splitFirst_app '?' p q hp2
  simp only [finalize_url, hs1, hs2]

/-- Claim C8: `_finalize_url` splits on the first `#`, then the first `?`,
    joins only the path part against the base, and reassembles
    `joined + '?' + query + '#' + fragment` with the query and fragment
    preserved verbatim; in particular `seg.mp4?token=abc#frag` resolved
    against any base ends in `?token=abc#frag`. -/
theorem C8_query_fragment_preservation :
    (∀ (join : String → String → String) (base : String) (p q f : List Char),
      '#' ∉ p → '?' ∉ p → '#' ∉ q →
      finalize_url join base (String.mk (p ++ '?' :: q ++ '#' :: f))
        = String.mk ((join base (String.mk p)).data ++ '?' :: q ++ '#' :: f)) ∧
    (∀ (join : String → String → String) (base : String),
      (finalize_url join base "seg.mp4?token=abc#frag").data
        = (join base "seg.mp4").data ++ "?token=abc#frag".data) :=
  by
  refine ⟨finalize_url_split, ?_⟩
  intro join base
  have h := finalize_url_split join base "seg.mp4".data "token=abc".data "frag".data
    (by decide) (by decide) (by decide)
  rw [show ("seg.mp4?token=abc#frag" : String)
      = String.mk ("seg.mp4".data ++ '?' :: "token=abc".data ++ '#' :: "frag".data) from rfl,
    h,
    show (String.mk "seg.mp4".data) = "seg.mp4" from rfl]
  show (join base "seg.mp4").data ++ '?' :: "token=abc".data ++ '#' :: "frag".data
      = (join base "seg.mp4").data ++ "?token=abc#frag".data
  rw [List.append_assoc]
  congr 1

/-- Witness for C8 with string concatenation as the join function. -/
theorem C8_query_fragment_preservation_witness :
    finalize_url (fun b t => b ++ t) "h:/x/" "seg.mp4?token=abc#frag"
      = "h:/x/seg.mp4?token=abc#frag" := by
  have h := C8_query_fragment_preservation.1 (fun b t => b ++ t) "h:/x/"
    "seg.mp4".data "token=abc".data "frag".data (by decide) (by decide) (by decide)
  simpa using h

/-! ## Theorems: best/worst selection (C9, C10) -/

theorem pyMaxBy_foldl_mem {α κ : Type} (lt : κ → κ → Bool) (key : α → κ) :
    ∀ (xs : List α) (x : α),
      xs.foldl (fun acc y => if lt (key acc) (key y) then y else acc) x ∈ x :: xs := by
  intro xs
  induction xs with
  | nil => intro x; simp
  | cons y ys ih =>
    intro x
    rw [List.foldl_cons]
    by_cases hxy : lt (key x) (key y) = true
    · rw [if_pos hxy]
      rcases List.mem_cons.mp (ih y) with h | h
      · simp [h]
      · exact List.mem_cons_of_mem _ (List.mem_cons_of_mem _ h)
    · rw [if_neg hxy]
      rcases List.mem_cons.mp (ih x) with h | h
      · simp [h]
      · exact List.mem_cons_of_mem _ (List.mem_cons_of_mem _ h)

theorem pyMaxBy_foldl_max {α κ : Type} (lt : κ → κ → Bool) (key : α → κ)
    (hirr : ∀ a, lt a a = false)
    (htr : ∀ a b c, lt a b = true → lt b c = true → lt a c = true)
    (hntr : ∀ a b c, lt a b = false → lt b c = false → lt a c = false) :
    ∀ (xs : List α) (x : α) (z : α), z ∈ x :: xs →
      lt (key (xs.foldl (fun acc y => if lt (key acc) (key y) then y else acc) x)) (key z)
        = false := by
  intro xs
  induction xs with
  | nil =>
    intro x z hz
    rw [List.foldl_nil]
    rcases List.mem_cons.mp hz with h | h
    · rw [h]; exact hirr (key x)
    · simp at h
  | cons y ys ih =>
    intro x z hz
    rw [List.foldl_cons]
    by_cases hxy : lt (key x) (key y) = true
    · rw [if_pos hxy]
      rcases List.mem_cons.mp hz with h | h
      · have hy := ih y y (by simp)
        cases hv : lt (key (ys.foldl (fun acc w => if lt (key acc) (key w) then w else acc) y)) (key z)
        · rfl
        · rw [h] at hv
          exact absurd (htr _ _ _ hv hxy) (by simp [hy])
      · exact ih y z h
    · rw [if_neg hxy]
      rcases List.mem_cons.mp hz with h | h
      · rw [h]; exact ih x x (by simp)
      · rcases List.mem_cons.mp h with h2 | h2
        · rw [h2]
          have hx := ih x x (by simp)
          exact hntr _ _ _ hx (by simpa using hxy)
        · exact ih x z (by simp [h2])

theorem pyMaxBy_mem {α κ : Type} (lt : κ → κ → Bool) (key : α → κ)
    (l : List α) (m : α) (h : pyMaxBy lt key l = some m) : m ∈ l := by
  cases l with
  | nil => simp [pyMaxBy] at h
  | cons x xs =>
    simp only [pyMaxBy, Option.some.injEq] at h
    rw [← h]
    exact pyMaxBy_foldl_mem lt key xs x

theorem pyMaxBy_max {α κ : Type} (lt : κ → κ → Bool) (key : α → κ)
    (hirr : ∀ a, lt a a = false)
    (htr : ∀ a b c, lt a b = true → lt b c = true → lt a c = true)
    (hntr : ∀ a b c, lt a b = false → lt b c = false → lt a c = false)
    (l : List α) (m : α) (h : pyMaxBy lt key l = some m) :
    ∀ y ∈ l, lt (key m) (key y) = false := by
  cases l with
  | nil => simp [pyMaxBy] at h
  | cons x xs =>
    simp only [pyMaxBy, Option.some.injEq] at h
    intro y hy
    rw [← h]
    exact pyMaxBy_foldl_max lt key hirr htr hntr xs x y hy

theorem pyMinBy_eq_pyMaxBy {α κ : Type} (lt : κ → κ → Bool) (key : α → κ)
    (l : List α) : pyMinBy lt key l = pyMaxBy (fun a b => lt b a) key l := by
  cases l <;> rfl

theorem tripleLt_irrefl : ∀ a : Int × Int × Int, tripleLt a a = false := by
  intro a
  simp [tripleLt]

theorem tripleLt_trans : ∀ a b c : Int × Int × Int,
    tripleLt a b = true → tripleLt b c = true → tripleLt a c = true := by
  intro a b c hab hbc
  simp only [tripleLt, decide_eq_true_eq] at *
  omega

theorem tripleLt_ntrans : ∀ a b c : Int × Int × Int,
    tripleLt a b = false → tripleLt b c = false → tripleLt a c = false := by
  intro a b c hab hbc
  simp only [tripleLt, decide_eq_false_iff_not] at *
  omega

theorem intLt_irrefl : ∀ a : Int, (fun a b : Int => decide (a < b)) a a = false := by
  intro a; simp

theorem intLt_trans : ∀ a b c : Int,
    (fun a b : Int => decide (a < b)) a b = true →
    (fun a b : Int => decide (a < b)) b c = true →
    (fun a b : Int => decide (a < b)) a c = true := by
  intro a b c hab hbc
  simp only [decide_eq_true_eq] at *
  omega

theorem intLt_ntrans : ∀ a b c : Int,
    (fun a b : Int => decide (a < b)) a b = false →
    (fun a b : Int => decide (a < b)) b c = false →
    (fun a b : Int => decide (a < b)) a c = false := by
  intro a b c hab hbc
  simp only [decide_eq_false_iff_not] at *
  omega

/-- Concrete 1080p/5000 representation from the spec example. -/
def c9v1 : Rep := ⟨some "v1", "video", none, 5000, 1920, 1080, "", none, []⟩

/-- Concrete 1080p/3000 representation from the spec example. -/
def c9v2 : Rep := ⟨some "v2", "video", none, 3000, 1920, 1080, "", none, []⟩

/-- Concrete 720p/8000 representation from the spec example. -/
def c9v3 : Rep := ⟨some "v3", "video", none, 8000, 1280, 720, "", none, []⟩

/-- Claim C9: over all-video representation sets, `get_best` returns a
    member maximal under the lexicographic `(height, width, bandwidth)`
    order and `get_worst` a minimal one; over all-audio sets the order is by
    bandwidth alone; and on the spec example the 5000-bandwidth 1080p
    element is best (bandwidth breaks the height/width tie) while the 720p
    element is worst. -/
theorem C9_best_worst_ordering :
    (∀ (reps : List Rep) (m : Rep), (∀ r ∈ reps, r.type = "video") →
      get_best reps = some m →
      m ∈ reps ∧ ∀ r ∈ reps, tripleLt (videoKey m) (videoKey r) = false) ∧
    (∀ (reps : List Rep) (m : Rep), (∀ r ∈ reps, r.type = "video") →
      get_worst reps = some m →
      m ∈ reps ∧ ∀ r ∈ reps, tripleLt (videoKey r) (videoKey m) = false) ∧
    (∀ (reps : List Rep) (m : Rep), (∀ r ∈ reps, r.type = "audio") →
      get_best reps = some m →
      m ∈ reps ∧ ∀ r ∈ reps, r.bandwidth ≤ m.bandwidth) ∧
    (∀ (reps : List Rep) (m : Rep), (∀ r ∈ reps, r.type = "audio") →
      get_worst reps = some m →
      m ∈ reps ∧ ∀ r ∈ reps, m.bandwidth ≤ r.bandwidth) ∧
    get_best [c9v1, c9v2, c9v3] = some c9v1 ∧
    get_worst [c9v1, c9v2, c9v3] = some c9v3 := by
  have hfv : ∀ (reps : List Rep), (∀ r ∈ reps, r.type = "video") →
      reps.filter (fun r => r.type = "video") = reps :=
    fun reps hall => List.filter_eq_self.mpr (fun r hr => by simp [hall r hr])
  have hfa : ∀ (reps : List Rep), (∀ r ∈ reps, r.type = "audio") →
      reps.filter (fun r => r.type = "audio") = reps :=
    fun reps hall => List.filter_eq_self.mpr (fun r hr => by simp [hall r hr])
  have hfva : ∀ (reps : List Rep), (∀ r ∈ reps, r.type = "audio") →
      reps.filter (fun r => r.type = "video") = [] :=
    fun reps hall => List.filter_eq_nil.mpr (fun r hr => by simp [hall r hr])
  refine ⟨?_, ?_, ?_, ?_, by decide, by decide⟩
  · intro reps m hall h
    have h2 : pyMaxBy tripleLt videoKey reps = some m := by
      rcases reps with _ | ⟨a, as⟩
      · simp [get_best] at h
      · simpa [get_best, hfv _ hall] using h
    exact ⟨pyMaxBy_mem _ _ _ _ h2,
      pyMaxBy_max tripleLt videoKey tripleLt_irrefl tripleLt_trans tripleLt_ntrans _ _ h2⟩
  · intro reps m hall h
    have h2 : pyMaxBy (fun a b => tripleLt b a) videoKey reps = some m := by
      rcases reps with _ | ⟨a, as⟩
      · simp [get_worst] at h
      · rw [← pyMinBy_eq_pyMaxBy]
        simpa [get_worst, hfv _ hall] using h
    refine ⟨pyMaxBy_mem _ _ _ _ h2, ?_⟩
    have := pyMaxBy_max (fun a b => tripleLt b a) videoKey
      (fun a => tripleLt_irrefl a)
      (fun a b c hab hbc => tripleLt_trans _ _ _ hbc hab)
      (fun a b c hab hbc => tripleLt_ntrans _ _ _ hbc hab) _ _ h2
    exact this
  · intro reps m hall h
    have h2 : pyMaxBy (fun a b => decide (a < b)) Rep.bandwidth reps = some m := by
      rcases reps with _ | ⟨a, as⟩
      · simp [get_best] at h
      · simpa [get_best, hfva _ hall, hfa _ hall] using h
    refine ⟨pyMaxBy_mem _ _ _ _ h2, ?_⟩
    intro r hr
    have := pyMaxBy_max _ Rep.bandwidth intLt_irrefl intLt_trans intLt_ntrans _ _ h2 r hr
    simpa using this
  · intro reps m hall h
    have h2 : pyMaxBy (fun a b : Int => decide (b < a)) Rep.bandwidth reps = some m := by
      rcases reps with _ | ⟨a, as⟩
      · simp [get_worst] at h
      · rw [← pyMinBy_eq_pyMaxBy]
        simpa [get_worst, hfva _ hall, hfa _ hall] using h
    refine ⟨pyMaxBy_mem _ _ _ _ h2, ?_⟩
    intro r hr
    have := pyMaxBy_max (fun a b : Int => decide (b < a)) Rep.bandwidth
      (fun a => by simp)
      (fun a b c hab hbc => by simp only [decide_eq_true_eq] at *; omega)
      (fun a b c hab hbc => by simp only [decide_eq_false_iff_not] at *; omega) _ _ h2 r hr
    simpa using this

/-- Witness for C9 on the all-video example list: membership and
    maximality at the spec example. -/
theorem C9_best_worst_ordering_witness :
    c9v1 ∈ [c9v1, c9v2, c9v3] ∧
    ∀ r ∈ [c9v1, c9v2, c9v3], tripleLt (videoKey c9v1) (videoKey r) = false := by
  exact C9_best_worst_ordering.1 [c9v1, c9v2, c9v3] c9v1 (by decide) (by decide)

/-- Concrete low-bandwidth video representation. -/
def c10video : Rep := ⟨some "v", "video", none, 1, 640, 360, "", none, []⟩

/-- Concrete very-high-bandwidth audio representation. -/
def c10audio : Rep := ⟨some "a", "audio", none, 1000000, 0, 0, "en", none, []⟩

/-- Claim C10: when the list contains at least one video representation,
    `get_best` and `get_worst` select among the videos only — an audio
    representation is never returned no matter its bandwidth — and on a
    list with neither video nor audio both return `none`; on the example
    with a bandwidth-1 video and a bandwidth-1000000 audio, both return the
    video. -/
theorem C10_video_priority :
    (∀ (reps : List Rep), (∃ r ∈ reps, r.type = "video") →
      ∃ m, get_best reps = some m ∧ m.type = "video" ∧ m ∈ reps) ∧
    (∀ (reps : List Rep), (∃ r ∈ reps, r.type = "video") →
      ∃ m, get_worst reps = some m ∧ m.type = "video" ∧ m ∈ reps) ∧
    (∀ (reps : List Rep), (∀ r ∈ reps, r.type ≠ "video" ∧ r.type ≠ "audio") →
      get_best reps = none ∧ get_worst reps = none) ∧
    get_best [c10video, c10audio] = some c10video ∧
    get_worst [c10video, c10audio] = some c10video := by
  refine ⟨?_, ?_, ?_, by decide, by decide⟩
  · rintro reps ⟨r, hr, hrt⟩
    have hmem : r ∈ reps.filter (fun x => x.type = "video") :=
      List.mem_filter.mpr ⟨hr, by simp [hrt]⟩
    rcases hfv : reps.filter (fun x => x.type = "video") with _ | ⟨x, xs⟩
    · rw [hfv] at hmem; simp at hmem
    · have h2 : get_best reps = pyMaxBy tripleLt videoKey (x :: xs) := by
        simp [get_best, hfv]
      refine ⟨xs.foldl (fun acc y => if tripleLt (videoKey acc) (videoKey y) then y else acc) x,
        h2.trans rfl, ?_⟩
      have hm : (xs.foldl (fun acc y =>
          if tripleLt (videoKey acc) (videoKey y) then y else acc) x) ∈ x :: xs :=
        pyMaxBy_foldl_mem tripleLt videoKey xs x
      rw [← hfv] at hm
      have := List.mem_filter.mp hm
      exact ⟨by simpa using this.2, this.1⟩
  · rintro reps ⟨r, hr, hrt⟩
    have hmem : r ∈ reps.filter (fun x => x.type = "video") :=
      List.mem_filter.mpr ⟨hr, by simp [hrt]⟩
    rcases hfv : reps.filter (fun x => x.type = "video") with _ | ⟨x, xs⟩
    · rw [hfv] at hmem; simp at hmem
    · have h2 : get_worst reps = pyMinBy tripleLt videoKey (x :: xs) := by
        simp [get_worst, hfv]
      rw [pyMinBy_eq_pyMaxBy] at h2
      refine ⟨xs.foldl (fun acc y =>
        if tripleLt (videoKey y) (videoKey acc) then y else acc) x, h2.trans rfl, ?_⟩
      have hm : (xs.foldl (fun acc y =>
          if tripleLt (videoKey y) (videoKey acc) then y else acc) x) ∈ x :: xs :=
        pyMaxBy_foldl_mem (fun a b => tripleLt b a) videoKey xs x
      rw [← hfv] at hm
      have := List.mem_filter.mp hm
      exact ⟨by simpa using this.2, this.1⟩
  · intro reps hall
    have hv : reps.filter (fun x => x.type = "video") = [] :=
      List.filter_eq_nil.mpr (fun r hr => by simp [(hall r hr).1])
    have ha : reps.filter (fun x => x.type = "audio") = [] :=
      List.filter_eq_nil.mpr (fun r hr => by simp [(hall r hr).2])
    constructor
    · simp [get_best, hv, ha]
    · simp [get_worst, hv, ha]

/-- Witness for C10: applied to the concrete mixed list, the selected
    element is a video representation. -/
theorem C10_video_priority_witness :
    ∃ m, get_best [c10video, c10audio] = some m ∧ m.type = "video"
      ∧ m ∈ [c10video, c10audio] :=
  C10_video_priority.1 [c10video, c10audio] ⟨c10video, by decide, by decide⟩

/-! ## Theorems: audio language selection (C5) -/

theorem selectByPrefs_all_none (audio : List Rep) :
    ∀ (prefs : List String), (∀ l ∈ prefs, findLang audio l = none) →
      selectByPrefs audio prefs = none := by
  intro prefs
  induction prefs with
  | nil => intro _; rfl
  | cons l rest ih =>
    intro h
    simp only [selectByPrefs, h l (by simp)]
    exact ih (fun x hx => h x (by simp [hx]))

theorem selectByPrefs_skip (audio : List Rep) :
    ∀ (pre rest : List String), (∀ l ∈ pre, findLang audio l = none) →
      selectByPrefs audio (pre ++ rest) = selectByPrefs audio rest := by
  intro pre
  induction pre with
  | nil => intro rest _; rfl
  | cons l t ih =>
    intro rest h
    rw [List.cons_append]
    simp only [selectByPrefs, h l (by simp)]
    exact ih rest (fun x hx => h x (by simp [hx]))

/-- Concrete English audio representation from the spec example. -/
def c5en : Rep := ⟨some "a1", "audio", none, 128, 0, 0, "en", none, []⟩

/-- Concrete French audio representation from the spec example (higher
    bandwidth, so it is also the best-bandwidth fallback). -/
def c5fr : Rep := ⟨some "a2", "audio", none, 256, 0, 0, "fr", none, []⟩

/-- Claim C5: `select_audio` scans the preference list in priority order
    and, within a preferred language, the audio representations in parse
    order, choosing the first case-insensitive exact match of the coalesced
    language tag; when no preferred language matches (or no preference list
    is given) it falls back to the highest-bandwidth audio representation;
    with no audio representations the selection is `none`. On the example
    `en`/`fr` with preferences `["it","en"]` it selects `en`, and with
    `["it","de"]` it falls back to the highest-bandwidth `fr`. -/
theorem C5_audio_language_selection :
    (∀ (reps : List Rep) (prefs : List String), get_audios reps = [] →
      select_audio reps prefs = none) ∧
    (∀ (reps : List Rep) (pre post : List String) (lang : String) (m : Rep),
      (∀ l ∈ pre, findLang (get_audios reps) l = none) →
      findLang (get_audios reps) lang = some m →
      select_audio reps (pre ++ lang :: post) = some m) ∧
    (∀ (audio : List Rep) (lang : String) (a b : List Rep) (m : Rep),
      audio = a ++ m :: b →
      (∀ x ∈ a, lowerStr (langOrNone x) ≠ lowerStr lang) →
      lowerStr (langOrNone m) = lowerStr lang →
      findLang audio lang = some m) ∧
    (∀ (reps : List Rep) (prefs : List String),
      (∀ l ∈ prefs, findLang (get_audios reps) l = none) →
      select_audio reps prefs = get_best_audio reps) ∧
    (∀ (reps : List Rep) (m : Rep), get_best_audio reps = some m →
      m ∈ get_audios reps ∧ ∀ a ∈ get_audios reps, a.bandwidth ≤ m.bandwidth) ∧
    select_audio [c5en, c5fr] ["it", "en"] = some c5en ∧
    select_audio [c5en, c5fr] ["it", "de"] = some c5fr := by
  refine ⟨?_, ?_, ?_, ?_, ?_, by decide, by decide⟩
  · intro reps prefs ha
    have hb : get_best_audio reps = none := by
      simp [get_best_audio, ha, pyMaxBy]
    by_cases hp : prefs = []
    · subst hp; simp [select_audio, hb]
    · have hs : selectByPrefs (get_audios reps) prefs = none :=
        selectByPrefs_all_none _ prefs (fun l _ => by simp [findLang, ha])
      simp [select_audio, hp, hs, hb]
  · intro reps pre post lang m hpre hfind
    have hne2 : pre ++ lang :: post ≠ [] := by simp
    have hs : selectByPrefs (get_audios reps) (pre ++ lang :: post) = some m := by
      rw [selectByPrefs_skip _ pre _ hpre]
      simp [selectByPrefs, hfind]
    simp [select_audio, hne2, hs]
  · intro audio lang a b m heq hnomatch hmatch
    subst heq
    induction a with
    | nil =>
      simp only [List.nil_append, findLang]
      exact List.find?_cons_of_pos _ (by simp [hmatch])
    | cons x t ih =>
      rw [List.cons_append]
      simp only [findLang] at ih ⊢
      rw [List.find?_cons_of_neg _ (by simp [hnomatch x (by simp)])]
      exact ih (fun y hy => hnomatch y (by simp [hy]))
  · intro reps prefs hall
    by_cases hp : prefs = []
    · subst hp; simp [select_audio]
    · have hs : selectByPrefs (get_audios reps) prefs = none :=
        selectByPrefs_all_none _ prefs hall
      simp [select_audio, hp, hs]
  · intro reps m h
    have h2 : pyMaxBy (fun a b : Int => decide (a < b)) Rep.bandwidth (get_audios reps)
        = some m := h
    refine ⟨pyMaxBy_mem _ _ _ _ h2, ?_⟩
    intro a ha
    have := pyMaxBy_max _ Rep.bandwidth intLt_irrefl intLt_trans intLt_ntrans _ _ h2 a ha
    simpa using this

/-- Witness for C5: the preference scan applied at the concrete example
    list, with the higher-priority language absent. -/
theorem C5_audio_language_selection_witness :
    select_audio [c5en, c5fr] (["it"] ++ "en" :: []) = some c5en := by
  exact C5_audio_language_selection.2.1 [c5en, c5fr] ["it"] [] "en" c5en
    (by decide) (by decide)

/-! ## Theorems: manifest fetch retries (C6) -/

/-- Predicate: the attempt raised (any exception — transport, status, or
    XML parse). -/
def attemptFails {D : Type} : AttemptOutcome D → Bool
  | AttemptOutcome.ok _ => false
  | _ => true

theorem runAttempt_fails {D : Type} (a : AttemptOutcome D) (h : attemptFails a = true) :
    ∃ e, runAttempt a = Except.error e := by
  cases a with
  | transportError => exact ⟨FetchErr.transport, rfl⟩
  | badStatus c => exact ⟨FetchErr.httpStatus c, rfl⟩
  | parseError => exact ⟨FetchErr.xmlParse, rfl⟩
  | ok d => simp [attemptFails] at h

theorem fetchFrom_all_fail {D : Type} (attempts : Nat → AttemptOutcome D) :
    ∀ (n i : Nat), (∀ j, i ≤ j → j ≤ i + n → attemptFails (attempts j) = true) →
      ∃ e, fetchFrom attempts n i = Except.error e
        ∧ runAttempt (attempts (i + n)) = Except.error e := by
  intro n
  induction n with
  | zero =>
    intro i h
    obtain ⟨e, he⟩ := runAttempt_fails (attempts i) (h i (le_refl i) (by omega))
    exact ⟨e, by simpa [fetchFrom] using he, by simpa using he⟩
  | succ n ih =>
    intro i h
    obtain ⟨e0, he0⟩ := runAttempt_fails (attempts i) (h i (le_refl i) (by omega))
    obtain ⟨e, he1, he2⟩ := ih (i + 1) (fun j hj1 hj2 => h j (by omega) (by omega))
    refine ⟨e, ?_, ?_⟩
    · simp only [fetchFrom, he0]
      exact he1
    · have : i + 1 + n = i + (n + 1) := by omega
      rw [← this]
      exact he2

theorem fetchFrom_success {D : Type} (attempts : Nat → AttemptOutcome D) :
    ∀ (k n i : Nat) (d : D), k ≤ n →
      attempts (i + k) = AttemptOutcome.ok d →
      (∀ j, j < k → attemptFails (attempts (i + j)) = true) →
      fetchFrom attempts n i = Except.ok d := by
  intro k
  induction k with
  | zero =>
    intro n i d _ hok _
    rw [Nat.add_zero] at hok
    cases n with
    | zero => simp [fetchFrom, hok, runAttempt]
    | succ n2 => simp [fetchFrom, hok, runAttempt]
  | succ k ih =>
    intro n i d hk hok hfail
    cases n with
    | zero => omega
    | succ n2 =>
      obtain ⟨e0, he0⟩ := runAttempt_fails (attempts i) (by simpa using hfail 0 (by omega))
      simp only [fetchFrom, he0]
      refine ih n2 (i + 1) d (by omega) ?_ ?_
      · have : i + 1 + k = i + (k + 1) := by omega
        rw [this]
        exact hok
      · intro j hj
        have : i + 1 + j = i + (j + 1) := by omega
        rw [this]
        exact hfail (j + 1) (by omega)

/-- Attempt sequence refuting C6 as stated: the first attempt returns a
    well-formed HTTP response whose body fails XML parsing (neither a
    transport nor a non-2xx-status failure), the second attempt succeeds. -/
def c6_attempts : Nat → AttemptOutcome Nat :=
  fun i => if i = 0 then AttemptOutcome.parseError else AttemptOutcome.ok 7

/-- Counterexample to claim C6: the claim says retries happen only on
    transport or non-2xx-status failures, so a first attempt failing in
    `ET.fromstring` (an XML parse error) would not be retried and no
    document could be produced; but `_fetch_and_parse_mpd` catches every
    exception of the attempt body, retries, and returns the second
    attempt's parsed document. -/
theorem C6_counterexample :
    c6_attempts 0 = AttemptOutcome.parseError ∧
    runAttempt (c6_attempts 0) = Except.error FetchErr.xmlParse ∧
    fetch_and_parse_mpd c6_attempts 1 = Except.ok 7 := by
  refine ⟨rfl, rfl, rfl⟩

/-- Claim C6 (amended): the fetch loop retries on any failure of an
    attempt — transport errors, failure statuses and XML parse errors
    alike — up to `max_retry` additional sequential attempts; when every
    attempt up to the bound fails, the exception of the final attempt
    propagates and no document is produced; when a later attempt within the
    bound succeeds, its parsed document is returned. -/
theorem C6_fetch_retries (D : Type) (attempts : Nat → AttemptOutcome D)
    (max_retry : Nat) :
    ((∀ j, j ≤ max_retry → attemptFails (attempts j) = true) →
      ∃ e, fetch_and_parse_mpd attempts max_retry = Except.error e
        ∧ runAttempt (attempts max_retry) = Except.error e) ∧
    (∀ (k : Nat) (d : D), k ≤ max_retry →
      attempts k = AttemptOutcome.ok d →
      (∀ j, j < k → attemptFails (attempts j) = true) →
      fetch_and_parse_mpd attempts max_retry = Except.ok d) := by
  constructor
  · intro h
    obtain ⟨e, h1, h2⟩ := fetchFrom_all_fail attempts max_retry 0
      (fun j hj1 hj2 => h j (by omega))
    exact ⟨e, h1, by simpa using h2⟩
  · intro k d hk hok hfail
    exact fetchFrom_success attempts k max_retry 0 d hk (by simpa using hok)
      (fun j hj => by simpa using hfail j hj)

/-- Witness for the amended C6: exhaustion on an all-transport-failure
    sequence with one retry, and recovery when the first attempt returns a
    500 status and the second succeeds. -/
theorem C6_fetch_retries_witness :
    fetch_and_parse_mpd (fun _ => (AttemptOutcome.transportError : AttemptOutcome Nat)) 1
      = Except.error FetchErr.transport ∧
    fetch_and_parse_mpd
      (fun i => if i = 0 then AttemptOutcome.badStatus 500 else AttemptOutcome.ok 3) 1
      = Except.ok 3 := by
  constructor
  · obtain ⟨e, h1, h2⟩ :=
      (C6_fetch_retries Nat (fun _ => AttemptOutcome.transportError) 1).1
        (fun j _ => rfl)
    have he : e = FetchErr.transport := by
      simpa [runAttempt] using h2.symm
    rw [← he]
    exact h1
  · exact (C6_fetch_retries Nat
      (fun i => if i = 0 then AttemptOutcome.badStatus 500 else AttemptOutcome.ok 3) 1).2
      1 3 (by omega) rfl (fun j hj => by interval_cases j <;> rfl)

/-! ## Theorems: namespace extraction (C2) -/

/-- Counterexample to claim C2: the claim says the fixed `cenc` namespace
    URI is registered unconditionally, for every root element, whether or
    not its tag carries a namespace. For a root whose tag is plain `MPD`
    (no namespace), `_extract_namespace` takes the else-path of
    `tag.startswith('{')` and registers nothing: neither `mpd` nor `cenc`
    is present in the prefix map. -/
theorem C2_counterexample :
    extract_namespace "MPD" = [] ∧
    (extract_namespace "MPD").lookup "cenc" = none ∧
    (extract_namespace "MPD").lookup "mpd" = none := by
  refine ⟨rfl, rfl, rfl⟩

/-- Claim C2 (amended): `mpd` and the fixed `cenc` URI
    (`urn:mpeg:cenc:2013`, regardless of what the manifest declares) are
    registered exactly when the root tag carries a namespace (starts with a
    brace); when the root tag carries no namespace, nothing is registered,
    and the downstream namespace-qualified lookup of `_extract_pssh`
    (prefix `mpd`, and `cenc` likewise) resolves against an empty prefix
    map and raises ElementTree's `SyntaxError` (modelled as `Except.error`)
    rather than behaving as "nothing found"; with a registered map, the
    qualified names resolve to their brace-qualified forms. -/
theorem C2_namespace_registration :
    (∀ (uri loc : List Char), '}' ∉ uri →
      extract_namespace (String.mk ('{' :: uri ++ '}' :: loc))
        = [("mpd", String.mk uri), ("cenc", "urn:mpeg:cenc:2013")]) ∧
    (∀ tag : String, (∀ c rest, tag.data = c :: rest → c ≠ '{') →
      extract_namespace tag = []) ∧
    resolveQName [] "mpd:ContentProtection" = Except.error "mpd" ∧
    resolveQName [] "cenc:pssh" = Except.error "cenc" ∧
    (∀ uriS : String,
      resolveQName [("mpd", uriS), ("cenc", "urn:mpeg:cenc:2013")] "mpd:ContentProtection"
        = Except.ok (String.mk ('{' :: uriS.data ++ '}' :: "ContentProtection".data)) ∧
      resolveQName [("mpd", uriS), ("cenc", "urn:mpeg:cenc:2013")] "cenc:pssh"
        = Except.ok (String.mk ('{' :: "urn:mpeg:cenc:2013".data ++ '}' :: "pssh".data))) := by
  refine ⟨?_, ?_, rfl, rfl, ?_⟩
  · intro uri loc hmem
    have hred : extract_namespace (String.mk ('{' :: uri ++ '}' :: loc))
        = [("mpd", String.mk (match splitFirst '}' (uri ++ '}' :: loc) with
            | some (a, _) => a
            | none => uri ++ '}' :: loc)), ("cenc", "urn:mpeg:cenc:2013")] := rfl
    rw [hred, splitFirst_app '}' uri loc hmem]
  · intro tag h
    rcases htag : tag.data with _ | ⟨c, rest⟩
    · simp [extract_namespace, htag]
    · have hc : c ≠ '{' := h c rest htag
      unfold extract_namespace
      rw [htag]
      split
      · rename_i heq
        exact absurd (List.head_eq_of_cons_eq heq.symm) (Ne.symm hc)
      · rfl
  · intro uriS
    constructor
    · have hsp : splitFirst ':' "mpd:ContentProtection".data
          = some ("mpd".data, "ContentProtection".data) := rfl
      simp [resolveQName, hsp, List.lookup]
    · have hsp : splitFirst ':' "cenc:pssh".data = some ("cenc".data, "pssh".data) := rfl
      simp [resolveQName, hsp, List.lookup]

/-- Witness for the amended C2 at a concrete namespaced root tag. -/
theorem C2_namespace_registration_witness :
    extract_namespace (String.mk ('{' :: "urn:mpeg:dash:schema:mpd:2011".data
        ++ '}' :: "MPD".data))
      = [("mpd", String.mk "urn:mpeg:dash:schema:mpd:2011".data),
         ("cenc", "urn:mpeg:cenc:2013")] := by
  exact C2_namespace_registration.1 "urn:mpeg:dash:schema:mpd:2011".data "MPD".data
    (by decide)

/-! ## Theorems: segment URL counts (C3) -/

/-- Representation-level template refuting C3 as stated: a non-empty
    timeline (two decoded entries) with a media template carrying neither
    `$Time$` nor `$Number`. -/
def c3tmpl : SegTemplate := ⟨none, some "seg.mp4", none, some [⟨some 5, some 1, some 0⟩]⟩

/-- Counterexample to claim C3: the claim says that whenever the decoded
    timeline is non-empty, `segment_urls` has the timeline's length; but
    when the media template contains neither placeholder,
    `_build_media_urls` emits exactly one URL — here the timeline decodes
    to 2 entries while `segment_urls` has length 1. -/
theorem C3_counterexample :
    (parseTimeline [(⟨some 5, some 1, some 0⟩ : SElem)]).1.length = 2 ∧
    (build_segment_urls (fun b t => b ++ t) c3tmpl none none "h").2.length = 1 :=
  ⟨rfl, rfl⟩

/-- Claim C3 (amended): when the decoded timeline is non-empty and the
    media template contains `$Time$` or `$Number`, `segment_urls` has
    exactly the decoded timeline's length; a media template with neither
    placeholder yields exactly one URL regardless of the timeline; an
    absent media template yields no URLs; and when no timeline is present
    the numeric fallback produces the 100 consecutive numbers starting at
    the template's `startNumber`, one URL each when the template uses
    `$Number`. -/
theorem C3_segment_url_count :
    (∀ (join : String → String → String) (tmpl : SegTemplate) (rid : Option String)
        (bw : Option Int) (base : String) (ss : List SElem) (m : String),
      tmpl.timeline = some ss → tmpl.media = some m → m ≠ "" →
      (parseTimeline ss).1 ≠ [] →
      (containsSub m.data "$Time$".data = true ∨ containsSub m.data "$Number".data = true) →
      (build_segment_urls join tmpl rid bw base).2.length = (parseTimeline ss).1.length) ∧
    (∀ (join : String → String → String) (tmpl : SegTemplate) (rid : Option String)
        (bw : Option Int) (base : String) (m : String),
      tmpl.media = some m → m ≠ "" →
      containsSub m.data "$Time$".data = false →
      containsSub m.data "$Number".data = false →
      (build_segment_urls join tmpl rid bw base).2.length = 1) ∧
    (∀ (join : String → String → String) (tmpl : SegTemplate) (rid : Option String)
        (bw : Option Int) (base : String),
      tmpl.media = none → (build_segment_urls join tmpl rid bw base).2 = []) ∧
    (∀ (join : String → String → String) (tmpl : SegTemplate) (rid : Option String)
        (bw : Option Int) (base : String) (m : String),
      tmpl.timeline = none → tmpl.media = some m → m ≠ "" →
      containsSub m.data "$Time$".data = false →
      containsSub m.data "$Number".data = true →
      (build_segment_urls join tmpl rid bw base).2
        = (List.range 100).map (fun i : Nat =>
            (build_url join base m rid (some (tmpl.startNumber.getD 1 + (i : Int)))
              none bw).getD "")) := by
  refine ⟨?_, ?_, ?_, ?_⟩
  · intro join tmpl rid bw base ss m htl hm hmne hdec hor
    have hlen := parseTimeline_len_eq ss
    have h2ne : (parseTimeline ss).2 ≠ [] := by
      intro hnil
      rw [hnil] at hlen
      simp at hlen
      exact hdec hlen
    simp only [build_segment_urls, htl, hm, build_media_urls, if_neg hdec]
    rw [if_neg hmne]
    by_cases ht : containsSub m.data "$Time$".data = true
    · rw [if_pos ⟨ht, h2ne⟩, List.length_map]
      exact hlen.symm
    · have hn : containsSub m.data "$Number".data = true := by
        rcases hor with h | h
        · exact absurd h ht
        · exact h
      rw [if_neg (fun hcontra => ht hcontra.1), if_pos ⟨hn, hdec⟩, List.length_map]
  · intro join tmpl rid bw base m hm hmne ht hn
    simp only [build_segment_urls, hm, build_media_urls]
    rw [if_neg hmne, if_neg (fun hcontra => by rw [ht] at hcontra; exact absurd hcontra.1 (by simp)),
      if_neg (fun hcontra => by rw [hn] at hcontra; exact absurd hcontra.1 (by simp))]
    rfl
  · intro join tmpl rid bw base hm
    simp [build_segment_urls, hm, build_media_urls]
  · intro join tmpl rid bw base m htl hm hmne ht hn
    simp only [build_segment_urls, htl, hm, build_media_urls]
    simp [hmne, ht, hn, List.map_map]

/-- Witness for the amended C3: a `$Number$` media template with a two-entry
    timeline produces exactly two URLs. -/
theorem C3_segment_url_count_witness :
    (build_segment_urls (fun b t => b ++ t)
        ⟨none, some "s$Number$.mp4", none, some [⟨some 5, some 1, some 0⟩]⟩
        none none "h").2.length
      = (parseTimeline [(⟨some 5, some 1, some 0⟩ : SElem)]).1.length := by
  exact C3_segment_url_count.1 (fun b t => b ++ t)
    ⟨none, some "s$Number$.mp4", none, some [⟨some 5, some 1, some 0⟩]⟩
    none none "h" [⟨some 5, some 1, some 0⟩] "s$Number$.mp4"
    rfl rfl (by decide) (by decide) (Or.inr (by decide))

/-! ## Theorems: Widevine CONTENT key extraction (C4) -/

theorem replaceAll_single_cons_ne (c0 : Char) (r : List Char) (c : Char)
    (rest : List Char) (hc : c ≠ c0) :
    replaceAll [c0] r (c :: rest) = c :: replaceAll [c0] r rest := by
  rw [replaceAll]
  rw [dif_neg]
  intro hcontra
  have hpre := hcontra.2
  simp [List.isPrefixOf] at hpre
  exact hc hpre.symm

theorem replaceAll_single_cons_eq (c0 : Char) (r : List Char) (rest : List Char) :
    replaceAll [c0] r (c0 :: rest) = r ++ replaceAll [c0] r rest := by
  rw [replaceAll]
  rw [dif_pos ⟨by simp, by simp [List.isPrefixOf]⟩]
  simp

theorem replaceAll_single_not_mem (c0 : Char) (r : List Char) :
    ∀ l : List Char, c0 ∉ l → replaceAll [c0] r l = l := by
  intro l
  induction l with
  | nil => intro _; rw [replaceAll]
  | cons c t ih =>
    intro h
    rw [replaceAll_single_cons_ne c0 r c t (fun hcc => h (by simp [hcc]))]
    rw [ih (fun hm => h (by simp [hm]))]

theorem replaceAll_single_append (c0 : Char) (r : List Char) :
    ∀ (p l : List Char), c0 ∉ p →
      replaceAll [c0] r (p ++ l) = p ++ replaceAll [c0] r l := by
  intro p
  induction p with
  | nil => intro l _; simp
  | cons c t ih =>
    intro l h
    rw [List.cons_append,
      replaceAll_single_cons_ne c0 r c (t ++ l) (fun hcc => h (by simp [hcc])),
      ih l (fun hm => h (by simp [hm])), List.cons_append]

theorem dropWhile_all_false (p : Char → Bool) :
    ∀ l : List Char, (∀ c ∈ l, p c = false) → l.dropWhile p = l := by
  intro l
  induction l with
  | nil => intro _; rfl
  | cons c t _ =>
    intro h
    rw [List.dropWhile_cons, if_neg (by simp [h c (by simp)])]

theorem pyStrip_eq_self (l : List Char) (h : ∀ c ∈ l, c.isWhitespace = false) :
    pyStrip (String.mk l) = String.mk l := by
  simp only [pyStrip]
  rw [dropWhile_all_false _ l h,
    dropWhile_all_false _ l.reverse (fun c hc => h c (List.mem_reverse.mp hc)),
    List.reverse_reverse]

theorem hexDigit_facts :
    ∀ n, n < 16 → hexDigit n ∈ "0123456789abcdef".data
      ∧ hexDigit n ≠ '-' ∧ (hexDigit n).isWhitespace = false := by decide

theorem mem_hexjoin (bs : List Nat) (c : Char)
    (hc : c ∈ (bs.map byteHex).join) : ∃ n, n < 16 ∧ c = hexDigit n := by
  rw [List.mem_join] at hc
  obtain ⟨l, hl, hcl⟩ := hc
  rw [List.mem_map] at hl
  obtain ⟨b, _, hbl⟩ := hl
  rw [← hbl] at hcl
  simp only [byteHex, List.mem_cons] at hcl
  rcases hcl with h | h | h
  · exact ⟨b / 16 % 16, Nat.mod_lt _ (by norm_num), h⟩
  · exact ⟨b % 16, Nat.mod_lt _ (by norm_num), h⟩
  · simp at h

theorem hexjoin_no_dash (bs : List Nat) : '-' ∉ (bs.map byteHex).join := by
  intro hm
  obtain ⟨n, hn, he⟩ := mem_hexjoin bs '-' hm
  exact (hexDigit_facts n hn).2.1 he.symm

theorem hexjoin_no_ws (bs : List Nat) :
    ∀ c ∈ (bs.map byteHex).join, c.isWhitespace = false := by
  intro c hm
  obtain ⟨n, hn, he⟩ := mem_hexjoin bs c hm
  rw [he]
  exact (hexDigit_facts n hn).2.2

theorem normalize_bytes (bs : List Nat) :
    normalizeKeyStr (keyValStr (KeyVal.bytes bs)) = bytesHex bs := by
  simp only [normalizeKeyStr, keyValStr, bytesHex]
  rw [replaceAll_single_not_mem '-' [] _ (hexjoin_no_dash bs)]
  exact pyStrip_eq_self _ (hexjoin_no_ws bs)

theorem normalize_uuid (bs : List Nat) :
    normalizeKeyStr (keyValStr (KeyVal.uuid bs)) = bytesHex bs := by
  set h := (bs.map byteHex).join with hh
  have hA : '-' ∉ h.take 8 := fun hm => hexjoin_no_dash bs (List.mem_of_mem_take hm)
  have hB : '-' ∉ (h.drop 8).take 4 :=
    fun hm => hexjoin_no_dash bs (List.mem_of_mem_drop (List.mem_of_mem_take hm))
  have hC : '-' ∉ (h.drop 12).take 4 :=
    fun hm => hexjoin_no_dash bs (List.mem_of_mem_drop (List.mem_of_mem_take hm))
  have hD : '-' ∉ (h.drop 16).take 4 :=
    fun hm => hexjoin_no_dash bs (List.mem_of_mem_drop (List.mem_of_mem_take hm))
  have hE : '-' ∉ h.drop 20 := fun hm => hexjoin_no_dash bs (List.mem_of_mem_drop hm)
  simp only [normalizeKeyStr, keyValStr, uuidStr, ← hh]
  have hshape : (h.take 8 ++ '-' :: (h.drop 8).take 4 ++ '-' :: (h.drop 12).take 4
        ++ '-' :: (h.drop 16).take 4 ++ '-' :: h.drop 20)
      = h.take 8 ++ ('-' :: ((h.drop 8).take 4 ++ ('-' :: ((h.drop 12).take 4
        ++ ('-' :: ((h.drop 16).take 4 ++ ('-' :: h.drop 20))))))) := by
    simp [List.append_assoc]
  rw [hshape, replaceAll_single_append '-' [] _ _ hA, replaceAll_single_cons_eq,
    replaceAll_single_append '-' [] _ _ hB, replaceAll_single_cons_eq,
    replaceAll_single_append '-' [] _ _ hC, replaceAll_single_cons_eq,
    replaceAll_single_append '-' [] _ _ hD, replaceAll_single_cons_eq,
    replaceAll_single_not_mem '-' [] _ hE]
  simp only [List.nil_append]
  have h1 : h.take 8 ++ (h.drop 8).take 4 = h.take 12 := by
    rw [← List.take_add]
  have h2 : h.take 12 ++ (h.drop 12).take 4 = h.take 16 := by
    rw [← List.take_add]
  have h3 : h.take 16 ++ (h.drop 16).take 4 = h.take 20 := by
    rw [← List.take_add]
  have hre : h.take 8 ++ ((h.drop 8).take 4 ++ ((h.drop 12).take 4
      ++ ((h.drop 16).take 4 ++ h.drop 20))) = h := by
    rw [← List.append_assoc, h1, ← List.append_assoc, h2, ← List.append_assoc, h3,
      List.take_append_drop]
  rw [hre]
  exact pyStrip_eq_self _ (hexjoin_no_ws bs)

theorem filterMap_guard {α β : Type} (p : α → Prop) [DecidablePred p] (g : α → β) :
    ∀ l : List α,
      l.filterMap (fun a => if p a then some (g a) else none)
        = (l.filter (fun a => decide (p a))).map g := by
  intro l
  induction l with
  | nil => rfl
  | cons a t ih =>
    by_cases hp : p a
    · simp [List.filterMap_cons, List.filter_cons, hp, ih]
    · simp [List.filterMap_cons, List.filter_cons, hp, ih]

/-- Concrete 16-byte key id of the C4 example. -/
def c4kid : List Nat :=
  [0, 17, 34, 51, 68, 85, 102, 119, 136, 153, 170, 187, 204, 221, 238, 255]

/-- Concrete CONTENT session key (UUID kid, raw-bytes key value). -/
def c4content : WvKey := ⟨"CONTENT", KeyVal.uuid c4kid, KeyVal.bytes [171, 205]⟩

/-- Concrete SIGNING session key. -/
def c4signing : WvKey := ⟨"SIGNING", KeyVal.bytes [1, 2], KeyVal.bytes [3, 4]⟩

/-- Claim C4: the key extractor retains exactly the session keys of type
    CONTENT, in session order, with each kid and key value rendered as a
    lowercase-hex string with separator dashes stripped (the hex rendering
    of both the UUID and the raw-bytes form equals the plain lowercase hex
    of the underlying bytes, and every output character is in the lowercase
    hex alphabet); zero retained CONTENT keys yields the recoverable empty
    result `none` (the code path returns after logging a warning, it cannot
    raise); and on the spec example of one CONTENT and one SIGNING key,
    exactly the normalized CONTENT key is returned. -/
theorem C4_content_key_extraction :
    (∀ keys : List WvKey, (∀ k ∈ keys, k.type ≠ "CONTENT") →
      extract_content_keys keys = none) ∧
    (∀ (keys : List WvKey) (l : List (String × String)),
      extract_content_keys keys = some l →
      l = (keys.filter (fun k => decide (k.type = "CONTENT"))).map
          (fun k => (normalizeKeyStr (keyValStr k.kid), normalizeKeyStr (keyValStr k.key)))
        ∧ l ≠ []) ∧
    (∀ bs : List Nat, normalizeKeyStr (keyValStr (KeyVal.uuid bs)) = bytesHex bs) ∧
    (∀ bs : List Nat, normalizeKeyStr (keyValStr (KeyVal.bytes bs)) = bytesHex bs) ∧
    (∀ (bs : List Nat) (c : Char), c ∈ (bytesHex bs).data → c ∈ "0123456789abcdef".data) ∧
    extract_content_keys [c4content, c4signing]
      = some [("00112233445566778899aabbccddeeff", "abcd")] := by
  refine ⟨?_, ?_, normalize_uuid, normalize_bytes, ?_, ?_⟩
  · intro keys hall
    have hf : keys.filter (fun k => decide (k.type = "CONTENT")) = [] :=
      List.filter_eq_nil.mpr (fun k hk => by simp [hall k hk])
    simp only [extract_content_keys, filterMap_guard, hf, List.map_nil]
    rfl
  · intro keys l h
    simp only [extract_content_keys, filterMap_guard] at h
    by_cases hc : (keys.filter (fun k => decide (k.type = "CONTENT"))).map
        (fun k => (normalizeKeyStr (keyValStr k.kid), normalizeKeyStr (keyValStr k.key))) = []
    · rw [if_pos hc] at h
      exact absurd h (by simp)
    · rw [if_neg hc] at h
      have hl := Option.some.inj h
      exact ⟨hl.symm, fun hnil => hc (hl.trans hnil)⟩
  · intro bs c hc
    obtain ⟨n, hn, he⟩ := mem_hexjoin bs c hc
    rw [he]
    exact (hexDigit_facts n hn).1
  · simp only [extract_content_keys, c4content, c4signing, List.filterMap_cons,
      List.filterMap_nil]
    simp only [normalize_uuid, normalize_bytes]
    simp
    constructor
    · decide
    · decide

/-- Witness for C4: a session with only a SIGNING key yields the empty
    (recoverable) result. -/
theorem C4_content_key_extraction_witness :
    extract_content_keys [c4signing] = none :=
  C4_content_key_extraction.1 [c4signing] (by decide)
